import Mathlib

/-!
Verification of the row-virtualization logic of `VirtualGrid.tsx`.

The component maps a flat item sequence into rows of `columns` items,
virtualises rows, detects the column count from a hidden CSS probe,
selects the scrolling surface, and fires an `endReached` callback near
the end of the list.  Pure fragments of the component are embedded as
Lean functions below; the parts delegated to `@tanstack/react-virtual`
(the visible-window computation and the measurement cache) are modelled
from the specification, as noted on their definitions.
-/

namespace VirtualGrid

/-- Embeds `const rowCount = Math.ceil(items.length / columns)` from
`VirtualGrid.tsx`, as ceiling division on naturals. -/
def rowCount (N C : ℕ) : ℕ := (N + C - 1) / C

/-- Embeds `items.slice(startIdx, startIdx + columns)` with
`startIdx = virtualRow.index * columns`: the items of row `r`. -/
def rowItems (items : List α) (C r : ℕ) : List α :=
  (items.drop (r * C)).take C

/-- Slice of a list between two absolute positions, `items[a : b]`,
used to state the specification's description of `rowItems`. -/
def sliceSpec (items : List α) (a b : ℕ) : List α :=
  (items.drop a).take (b - a)

theorem rowCount_zero (C : ℕ) (hC : 1 ≤ C) : rowCount 0 C = 0 := by
  unfold rowCount
  exact Nat.div_eq_of_lt (by omega)

theorem rowCount_le_mul (N C : ℕ) (hC : 1 ≤ C) : N ≤ rowCount N C * C := by
  have h := Nat.lt_mul_div_succ (N + C - 1) (show 0 < C by omega)
  unfold rowCount
  set q := (N + C - 1) / C with hq
  have h2 : C * (q + 1) = q * C + C := by ring
  rw [h2] at h
  omega

theorem rowCount_mul_lt_add (N C : ℕ) (hC : 1 ≤ C) : rowCount N C * C < N + C := by
  have h := Nat.div_mul_le_self (N + C - 1) C
  unfold rowCount
  set q := (N + C - 1) / C with hq
  omega

theorem rowCount_succ (N C : ℕ) (hC : 1 ≤ C) (hN : 1 ≤ N) :
    rowCount N C = rowCount (N - C) C + 1 := by
  unfold rowCount
  rcases Nat.lt_or_ge N (C + 1) with h | h
  · have e1 : N - C = 0 := by omega
    rw [e1]
    have e2 : (0 + C - 1) / C = 0 := Nat.div_eq_of_lt (by omega)
    rw [e2]
    have e3 : N + C - 1 = (N - 1) + C := by omega
    rw [e3, Nat.add_div_right _ (by omega)]
    have e4 : (N - 1) / C = 0 := Nat.div_eq_of_lt (by omega)
    omega
  · have e3 : N + C - 1 = (N - 1) + C := by omega
    have e4 : N - C + C - 1 = (N - C - 1) + C := by omega
    rw [e3, e4, Nat.add_div_right _ (by omega), Nat.add_div_right _ (by omega)]
    have e5 : N - 1 = (N - C - 1) + C := by omega
    rw [e5, Nat.add_div_right _ (by omega)]

theorem take_congr_min (l : List α) (a b : ℕ) (h : min a l.length = min b l.length) :
    l.take a = l.take b := by
  apply List.ext_getElem?
  intro i
  rcases Nat.lt_or_ge i (min a l.length) with hi | hi
  · rw [List.getElem?_take_of_lt (by omega), List.getElem?_take_of_lt (by omega)]
  · have h1 : (l.take a)[i]? = none := List.getElem?_eq_none (by simp; omega)
    have h2 : (l.take b)[i]? = none := List.getElem?_eq_none (by simp; omega)
    rw [h1, h2]

theorem rowItems_eq_slice (items : List α) (C r : ℕ) :
    rowItems items C r = sliceSpec items (r * C) (min ((r + 1) * C) items.length) := by
  unfold rowItems sliceSpec
  apply take_congr_min
  have h1 : (r + 1) * C = r * C + C := by ring
  rw [h1]
  simp only [List.length_drop]
  omega

theorem rowItems_zero (items : List α) (C : ℕ) : rowItems items C 0 = items.take C := by
  unfold rowItems
  simp

theorem rowItems_succ (items : List α) (C r : ℕ) :
    rowItems items C (r + 1) = rowItems (items.drop C) C r := by
  unfold rowItems
  rw [List.drop_drop]
  congr 2
  ring

theorem rowItems_nil_of_ge (items : List α) (C r : ℕ) (hC : 1 ≤ C)
    (hr : rowCount items.length C ≤ r) : rowItems items C r = [] := by
  unfold rowItems
  unfold rowCount at hr
  have h := (Nat.div_le_iff_le_mul_add_pred (show 0 < C by omega)).mp hr
  have hcm : C * r = r * C := by ring
  have hN : items.length ≤ r * C := by omega
  rw [List.drop_eq_nil_of_le hN]
  simp

theorem rowItems_flatten (C : ℕ) (hC : 1 ≤ C) (items : List α) :
    ((List.range (rowCount items.length C)).map (rowItems items C)).flatten = items := by
  have H : ∀ (n : ℕ) (l : List α), l.length = n →
      ((List.range (rowCount l.length C)).map (rowItems l C)).flatten = l := by
    intro n
    induction n using Nat.strong_induction_on with
    | _ n ih =>
      intro l hlen
      rcases Nat.eq_zero_or_pos l.length with h0 | hpos
      · have hl : l = [] := List.length_eq_zero.mp h0
        subst hl
        simp [rowCount_zero C hC]
      · rw [rowCount_succ l.length C hC hpos, List.range_succ_eq_map]
        simp only [List.map_cons, List.map_map, List.flatten_cons]
        rw [rowItems_zero]
        have hcomp : (rowItems l C ∘ Nat.succ) = rowItems (l.drop C) C := by
          funext r
          exact rowItems_succ l C r
        rw [hcomp]
        have hdl : (l.drop C).length = l.length - C := by simp
        have hrec := ih (l.length - C) (by omega) (l.drop C) hdl
        rw [hdl] at hrec
        rw [hrec]
        exact List.take_append_drop C l
  exact H items.length items rfl

/-- C1: for every item count `N ≥ 0` and column count `C ≥ 1`, the computed
row count `Math.ceil(items.length / columns)` equals `⌈N / C⌉`, and in
particular `rowCount 0 C = 0`. -/
theorem rowCount_eq_ceil (N C : ℕ) (hC : 1 ≤ C) :
    (rowCount N C : ℤ) = ⌈(N : ℚ) / (C : ℚ)⌉ ∧ rowCount 0 C = 0 := by
  refine ⟨?_, rowCount_zero C hC⟩
  have hCQ : (0 : ℚ) < (C : ℚ) := by exact_mod_cast hC
  have h1 : N ≤ rowCount N C * C := rowCount_le_mul N C hC
  have h2 : rowCount N C * C < N + C := rowCount_mul_lt_add N C hC
  symm
  rw [Int.ceil_eq_iff]
  constructor
  · rw [lt_div_iff₀ hCQ]
    have h2q : ((rowCount N C : ℚ)) * C < N + C := by exact_mod_cast h2
    push_cast
    nlinarith
  · rw [div_le_iff₀ hCQ]
    exact_mod_cast h1

/-- C1 witness at `N = 7`, `C = 3` (row count 3). -/
theorem rowCount_eq_ceil_witness :
    (1 : ℕ) ≤ 3 ∧ ((rowCount 7 3 : ℤ) = ⌈(7 : ℚ) / (3 : ℚ)⌉ ∧ rowCount 0 3 = 0) :=
  ⟨by decide, by
    have h := rowCount_eq_ceil 7 3 (by decide)
    simpa using h⟩

/-- C2: for every item sequence, `C ≥ 1` and row index `r`, the items of row
`r` are exactly the slice `items[r*C : min((r+1)*C, N)]`; the concatenation of
the row slices over all rows in `[0, rowCount)` is the whole sequence, so the
slice lengths sum to `N`; and for `r ≥ rowCount` the slice is empty. -/
theorem rowItems_spec (items : List α) (C : ℕ) (hC : 1 ≤ C) :
    (∀ r, rowItems items C r = sliceSpec items (r * C) (min ((r + 1) * C) items.length))
    ∧ ((List.range (rowCount items.length C)).map (rowItems items C)).flatten = items
    ∧ ((List.range (rowCount items.length C)).map
        (fun r => (rowItems items C r).length)).sum = items.length
    ∧ (∀ r, rowCount items.length C ≤ r → rowItems items C r = []) := by
  refine ⟨fun r => rowItems_eq_slice items C r, rowItems_flatten C hC items, ?_,
    fun r hr => rowItems_nil_of_ge items C r hC hr⟩
  have h := congrArg List.length (rowItems_flatten C hC items)
  rw [List.length_flatten, List.map_map] at h
  exact h

/-- C2 witness at `items = [0,1,2,3,4]`, `C = 2`: the three rows flatten back
to the sequence, and row 3 (past `rowCount = 3`) is empty. -/
theorem rowItems_spec_witness :
    (1 : ℕ) ≤ 2 ∧
      ((List.range (rowCount (List.length [0, 1, 2, 3, 4]) 2)).map
        (rowItems [0, 1, 2, 3, 4] 2)).flatten = [0, 1, 2, 3, 4] ∧
      rowItems [0, 1, 2, 3, 4] 2 3 = ([] : List ℕ) :=
  ⟨by decide, (rowItems_spec [0, 1, 2, 3, 4] 2 (by decide)).2.1,
    (rowItems_spec [0, 1, 2, 3, 4] 2 (by decide)).2.2.2 3 (by decide)⟩

/-- Embeds one run of the `endReached` effect from `VirtualGrid.tsx`:
`if (!endReached || virtualRows.length === 0) return;` followed by
`if (lastRowIndex >= rowCount - endReachedThreshold && lastRowIndex !==
lastVirtualRowRef.current) { lastVirtualRowRef.current = lastRowIndex;
endReached(); }`.  `hasCallback` is whether `endReached` is provided,
`lastIdx` is the index of the last virtual row (`none` when the virtual
row list is empty), `ref` is `lastVirtualRowRef.current` (initially `-1`).
Returns the new ref value and whether the callback fired. -/
def endStep (hasCallback : Bool) (lastIdx : Option ℕ) (rowCnt : ℕ)
    (threshold : ℤ) (ref : ℤ) : ℤ × Bool :=
  if hasCallback = false then (ref, false)
  else
    match lastIdx with
    | none => (ref, false)
    | some i =>
      if (rowCnt : ℤ) - threshold ≤ (i : ℤ) ∧ (i : ℤ) ≠ ref then ((i : ℤ), true)
      else (ref, false)

/-- Runs `endStep` over a trace of effect invocations (with the callback
provided), threading the watermark ref and collecting whether each
invocation fired; each trace entry is `(lastIdx, rowCnt, threshold)`. -/
def runEnd (ref : ℤ) : List (Option ℕ × ℕ × ℤ) → List Bool
  | [] => []
  | (l, rc, t) :: rest =>
    let s := endStep true l rc t ref
    s.2 :: runEnd s.1 rest

/-- C4 counterexample: with `rowCount = 10` and `threshold = 2`, the trace
`lastVisible = 8, 9, 8` fires on every step: after firing at 8 (watermark
8) the move to 9 fires again although `lastVisible` only hovered between
8 and 9, and the move back to 8 fires although 8 is not a new maximum past
the watermark (now 9) — the code compares with `!==`, so any index at or
past the threshold that differs from the stored watermark re-notifies. -/
theorem endStep_fires_while_hovering :
    runEnd (-1) [(some 8, 10, 2), (some 9, 10, 2), (some 8, 10, 2)]
      = [true, true, true] := by decide

/-- C4 amended: the detector fires when `lastVisible` first reaches 8; it
does not fire again while `lastVisible` stays at the same index; any
`lastVisible` at or past `rowCount - threshold` that differs from the
stored watermark triggers again (a move to 9, and also a move back to 8 —
not only a new maximum); and it fires again when `rowCount` grows to 20
and `lastVisible` reaches 18. -/
theorem endStep_watermark_trace :
    runEnd (-1) [(some 8, 10, 2), (some 8, 10, 2), (some 9, 10, 2),
      (some 9, 10, 2), (some 8, 10, 2), (some 18, 20, 2)]
      = [true, false, true, false, true, true] := by
  decide

/-- C5: the notification never fires when `endReachedThreshold ≤ 0` or when
the row count is 0, provided the reported last visible row index is a valid
row index (`lastIdx.all (· < rowCnt)`, which is how the virtualizer clamps
its window). -/
theorem endStep_no_fire_nonpos_threshold_or_no_rows
    (hasCallback : Bool) (lastIdx : Option ℕ) (rowCnt : ℕ) (threshold : ℤ) (ref : ℤ)
    (hvalid : lastIdx.all (fun i => decide (i < rowCnt)) = true)
    (h : threshold ≤ 0 ∨ rowCnt = 0) :
    (endStep hasCallback lastIdx rowCnt threshold ref).2 = false := by
  unfold endStep
  cases hasCallback with
  | false => simp
  | true =>
    cases lastIdx with
    | none => simp
    | some i =>
      simp only [Option.all_some, decide_eq_true_eq] at hvalid
      have hcond : ¬((rowCnt : ℤ) ≤ (i : ℤ) + threshold ∧ ¬(i : ℤ) = ref) := by
        rintro ⟨hle, -⟩
        rcases h with ht | hrc
        · omega
        · omega
      simp [hcond]

/-- C5 witness: `rowCount = 5`, `threshold = 0`, last visible row 4 (a valid
index) — the callback does not fire. -/
theorem endStep_no_fire_witness :
    ((some 4 : Option ℕ).all (fun i => decide (i < 5)) = true)
      ∧ ((0 : ℤ) ≤ 0 ∨ (5 : ℕ) = 0)
      ∧ (endStep true (some 4) 5 0 (-1)).2 = false :=
  ⟨by decide, Or.inl (by decide),
    endStep_no_fire_nonpos_threshold_or_no_rows true (some 4) 5 0 (-1)
      (by decide) (Or.inl (by decide))⟩

/-- C10: when the callback is absent, or the virtual row list is empty, the
effect changes nothing: the watermark keeps its previous value and no
notification is attempted, for every row count, threshold and ref value. -/
theorem endStep_no_change_when_absent_or_empty
    (lastIdx : Option ℕ) (rowCnt : ℕ) (threshold : ℤ) (ref : ℤ) (hasCallback : Bool) :
    endStep false lastIdx rowCnt threshold ref = (ref, false)
    ∧ endStep hasCallback none rowCnt threshold ref = (ref, false) := by
  constructor
  · unfold endStep
    simp
  · unfold endStep
    cases hasCallback <;> simp

/-- Embeds the update performed by `detectColumns` in `VirtualGrid.tsx` once
the probe's template has been split: `if (cols > 0 && cols !== columns)
setColumns(cols)`, where `cols` is the detected entry count and `columns`
the previously published state. -/
def colsUpdate (cols columns : ℕ) : ℕ :=
  if 0 < cols ∧ cols ≠ columns then cols else columns

/-- Embeds `detectColumns` from `VirtualGrid.tsx`: when the probe element is
absent (`probeRef.current` null) the state is untouched; otherwise
`cols = style.gridTemplateColumns.split(its blank separator).length` feeds
`colsUpdate`. -/
def detectColumnsStep (probe : Option String) (columns : ℕ) : ℕ :=
  match probe with
  | none => columns
  | some s => colsUpdate (s.splitOn " ").length columns

/-- C7: the column count is republished only when the newly detected value
differs from the previously published one — the state is unchanged exactly
when the detected count is zero (no valid entry count) or equal to the
current value; when it does change, it changes to the detected count; and a
missing probe leaves the state unchanged. -/
theorem colsUpdate_publishes_iff (cols columns : ℕ) :
    (colsUpdate cols columns = columns ↔ cols = 0 ∨ cols = columns)
    ∧ (colsUpdate cols columns ≠ columns → colsUpdate cols columns = cols)
    ∧ detectColumnsStep none columns = columns := by
  refine ⟨?_, ?_, rfl⟩ <;> unfold colsUpdate <;>
    by_cases h : 0 < cols ∧ cols ≠ columns <;> simp [h] <;> omega

/-- C8: starting from the initial state `useState(3)` and applying any
sequence of probe readings, the published column count stays ≥ 1; with such
a count `C`, the ceiling `rowCount N C` satisfies `N ≤ rowCount N C * C`,
so the row computation never divides by zero (at `C = 0` that bound fails
for `N > 0`). -/
theorem columns_ge_one (probes : List (Option String)) (N : ℕ) :
    1 ≤ probes.foldl (fun c p => detectColumnsStep p c) 3
    ∧ N ≤ rowCount N (probes.foldl (fun c p => detectColumnsStep p c) 3)
        * probes.foldl (fun c p => detectColumnsStep p c) 3 := by
  have hpos : ∀ (ps : List (Option String)) (c : ℕ), 1 ≤ c →
      1 ≤ ps.foldl (fun c p => detectColumnsStep p c) c := by
    intro ps
    induction ps with
    | nil => intro c h; exact h
    | cons p ps ih =>
      intro c h
      apply ih
      cases p with
      | none => exact h
      | some s =>
        simp only [detectColumnsStep, colsUpdate]
        split
        · omega
        · exact h
  have h1 := hpos probes 3 (by omega)
  exact ⟨h1, rowCount_le_mul N _ h1⟩

/-- State of the root document as read by `getScrollElement`:
whether `window` is defined, and `document.documentElement`'s
`scrollTop`, `scrollHeight` and `clientHeight`. -/
structure DocMetrics where
  hasWindow : Bool
  scrollTop : ℕ
  scrollHeight : ℕ
  clientHeight : ℕ
deriving DecidableEq

/-- The two scroll surfaces `getScrollElement` can return. -/
inductive ScrollSurface where
  | documentElement : ScrollSurface
  | body : ScrollSurface
deriving DecidableEq

/-- Embeds `getScrollElement` from `VirtualGrid.tsx`: when `window` is
defined, return `document.documentElement` if `documentElement.scrollTop >
0 || documentElement.scrollHeight > documentElement.clientHeight`,
otherwise `document.body`; without `window`, return `document.body`. -/
def getScrollElement (d : DocMetrics) : ScrollSurface :=
  if d.hasWindow then
    if 0 < d.scrollTop ∨ d.clientHeight < d.scrollHeight then
      ScrollSurface.documentElement
    else ScrollSurface.body
  else ScrollSurface.body

/-- C9 counterexample: when `window` is undefined (server-side render), the
function returns the body element even though the document element reports
a nonzero scroll offset, so the decision is not a pure function of the two
stated conditions alone. -/
theorem getScrollElement_no_window_counterexample :
    getScrollElement ⟨false, 1, 0, 0⟩ = ScrollSurface.body
    ∧ (0 < (1 : ℕ) ∨ (0 : ℕ) < 0) := by decide

/-- C9 amended: whenever the `window` object is available, the selection
returns the root document element exactly when it reports a nonzero scroll
offset or its content height exceeds its client height, and otherwise the
body element; when `window` is unavailable it returns the body element
unconditionally. -/
theorem getScrollElement_characterised (d : DocMetrics) :
    getScrollElement d = ScrollSurface.documentElement
      ↔ (d.hasWindow = true ∧ (0 < d.scrollTop ∨ d.clientHeight < d.scrollHeight)) := by
  rcases d with ⟨hw, st, sh, ch⟩
  unfold getScrollElement
  cases hw with
  | false => simp
  | true =>
    by_cases h : 0 < st ∨ ch < sh <;> simp [h]

/-- Modelled from the spec: the virtualizer's per-row size table
(`@tanstack/react-virtual`'s measurement cache behind `measureElement` and
`getTotalSize` is not part of this repository's sources).  A
`reportMeasured` call `(r, h)` overwrites the table entry for row `r`. -/
def updateCache (cache : ℕ → Option ℕ) (m : ℕ × ℕ) : ℕ → Option ℕ :=
  fun r => if r = m.1 then some m.2 else cache r

/-- Modelled from the spec: the size table after a sequence of
`reportMeasured` calls, starting from an empty table. -/
def applyMeasurements (ms : List (ℕ × ℕ)) : ℕ → Option ℕ :=
  ms.foldl updateCache (fun _ => none)

/-- Modelled from the spec: `totalSize()` sums every row's current table
entry, falling back to the `estimateRowHeight` default for rows never
measured. -/
def totalSize (rowCnt est : ℕ) (ms : List (ℕ × ℕ)) : ℕ :=
  ((List.range rowCnt).map (fun r => (applyMeasurements ms r).getD est)).sum

/-- Latest reported height for row `r` in a measurement sequence, exactly
as the specification words it. -/
def latestMeasurement (ms : List (ℕ × ℕ)) (r : ℕ) : Option ℕ :=
  ((ms.filter (fun m => m.1 == r)).getLast?).map Prod.snd

theorem applyMeasurements_eq_latest (ms : List (ℕ × ℕ)) (r : ℕ) :
    applyMeasurements ms r = latestMeasurement ms r := by
  induction ms using List.reverseRecOn with
  | nil => rfl
  | append_singleton ms m ih =>
    unfold applyMeasurements at ih ⊢
    rw [List.foldl_append]
    unfold latestMeasurement at ih ⊢
    rw [List.filter_append]
    simp only [List.foldl_cons, List.foldl_nil]
    by_cases h : m.1 = r
    · simp [updateCache, h, List.getLast?_append]
    · simp [updateCache, h, Ne.symm h, ih]

theorem updateCache_comm (c : ℕ → Option ℕ) (m1 m2 : ℕ × ℕ) (h : m1.1 ≠ m2.1) :
    updateCache (updateCache c m1) m2 = updateCache (updateCache c m2) m1 := by
  funext r
  unfold updateCache
  by_cases h1 : r = m1.1 <;> by_cases h2 : r = m2.1
  · exact absurd (h1.symm.trans h2) h
  · simp [h1, h2, h]
  · simp [h1, h2, Ne.symm h]
  · simp [h1, h2]

theorem updateCache_idem (c : ℕ → Option ℕ) (m : ℕ × ℕ) :
    updateCache (updateCache c m) m = updateCache c m := by
  funext r
  unfold updateCache
  by_cases h : r = m.1 <;> simp [h]

/-- C6: for every sequence of `reportMeasured` calls, `totalSize()` equals
the sum over all rows of the latest reported height for that row, falling
back to the estimate for never-measured rows; swapping two adjacent reports
for distinct rows does not change the result; and repeating a report
produces no visible change. -/
theorem totalSize_spec (rowCnt est : ℕ) (ms pre post : List (ℕ × ℕ))
    (m m1 m2 : ℕ × ℕ) (hne : m1.1 ≠ m2.1) :
    totalSize rowCnt est ms
        = ((List.range rowCnt).map (fun r => (latestMeasurement ms r).getD est)).sum
    ∧ totalSize rowCnt est (pre ++ m1 :: m2 :: post)
        = totalSize rowCnt est (pre ++ m2 :: m1 :: post)
    ∧ totalSize rowCnt est (pre ++ m :: m :: post)
        = totalSize rowCnt est (pre ++ m :: post) := by
  refine ⟨?_, ?_, ?_⟩
  · unfold totalSize
    congr 1
    apply List.map_congr_left
    intro r _
    rw [applyMeasurements_eq_latest]
  · have key : applyMeasurements (pre ++ m1 :: m2 :: post)
        = applyMeasurements (pre ++ m2 :: m1 :: post) := by
      unfold applyMeasurements
      rw [List.foldl_append, List.foldl_append]
      simp only [List.foldl_cons]
      rw [updateCache_comm _ m1 m2 hne]
    unfold totalSize
    rw [key]
  · have key : applyMeasurements (pre ++ m :: m :: post)
        = applyMeasurements (pre ++ m :: post) := by
      unfold applyMeasurements
      rw [List.foldl_append, List.foldl_append]
      simp only [List.foldl_cons]
      rw [updateCache_idem]
    unfold totalSize
    rw [key]

/-- C6 witness: three rows with estimate 10; measuring row 0 to 5 and row 1
to 7 in either order gives the same total. -/
theorem totalSize_spec_witness :
    ((0, 5) : ℕ × ℕ).1 ≠ ((1, 7) : ℕ × ℕ).1
    ∧ totalSize 3 10 [(0, 5), (1, 7)] = totalSize 3 10 [(1, 7), (0, 5)] :=
  ⟨by decide,
    (totalSize_spec 3 10 [] [] [] (0, 5) (0, 5) (1, 7) (by decide)).2.1⟩

/-- Modelled from the spec: cumulative offset of row `r`, the sum of the
sizes of rows `[0, r)` (`@tanstack/react-virtual`'s window computation
behind `getVirtualItems` is not part of this repository's sources). -/
def offsetOf (sizes : ℕ → ℕ) (r : ℕ) : ℕ := ((List.range r).map sizes).sum

/-- Modelled from the spec: index of the first visible row — the first row
whose cumulative offset plus its size exceeds the scroll offset, computed
as the number of rows lying entirely at or above the scroll offset. -/
def startRow (sizes : ℕ → ℕ) (scroll rowCnt : ℕ) : ℕ :=
  ((List.range rowCnt).filter
    (fun r => decide (offsetOf sizes (r + 1) ≤ scroll))).length

/-- Modelled from the spec: one past the last visible row — the number of
rows whose cumulative offset lies before the bottom of the viewport. -/
def stopRow (sizes : ℕ → ℕ) (scroll viewport rowCnt : ℕ) : ℕ :=
  ((List.range rowCnt).filter
    (fun r => decide (offsetOf sizes r < scroll + viewport))).length

/-- Modelled from the spec: `visibleWindow()` — the base visible range
expanded by `overscan` rows at both ends and clamped to `[0, rowCnt)`. -/
def visibleWindow (sizes : ℕ → ℕ) (scroll viewport rowCnt overscan : ℕ) : List ℕ :=
  List.range' (startRow sizes scroll rowCnt - overscan)
    (min rowCnt (stopRow sizes scroll viewport rowCnt + overscan)
      - (startRow sizes scroll rowCnt - overscan))

/-- C3: for every size table, scroll offset, viewport extent, row count and
overscan, the visible window only contains row indices below `rowCnt`, is
contiguous (any index lying between two members is a member), and its size
is monotonically non-decreasing in the overscan parameter. -/
theorem visibleWindow_spec (sizes : ℕ → ℕ) (scroll viewport rowCnt o1 o2 : ℕ)
    (h : o1 ≤ o2) :
    (∀ x ∈ visibleWindow sizes scroll viewport rowCnt o1, x < rowCnt)
    ∧ (∀ x y z, x ∈ visibleWindow sizes scroll viewport rowCnt o1 →
        z ∈ visibleWindow sizes scroll viewport rowCnt o1 →
        x ≤ y → y ≤ z → y ∈ visibleWindow sizes scroll viewport rowCnt o1)
    ∧ (visibleWindow sizes scroll viewport rowCnt o1).length
        ≤ (visibleWindow sizes scroll viewport rowCnt o2).length := by
  unfold visibleWindow
  refine ⟨?_, ?_, ?_⟩
  · intro x hx
    rw [List.mem_range'_1] at hx
    omega
  · intro x y z hx hz hxy hyz
    rw [List.mem_range'_1] at hx hz ⊢
    omega
  · rw [List.length_range', List.length_range']
    omega

/-- C3 witness: five rows of height 100, viewport 250 at scroll 0 — the
window for overscan 0 is no longer than the window for overscan 1. -/
theorem visibleWindow_spec_witness :
    (0 : ℕ) ≤ 1
    ∧ (visibleWindow (fun _ => 100) 0 250 5 0).length
        ≤ (visibleWindow (fun _ => 100) 0 250 5 1).length :=
  ⟨by decide, (visibleWindow_spec (fun _ => 100) 0 250 5 0 1 (by decide)).2.2⟩

end VirtualGrid
